import Mathlib

/-!
Shallow embedding of the debounce controller of this repository
(src/unnamed/part_000, function `debounce` and its inner helpers).

Times are naturals (milliseconds of the host clock, as produced by the
now-function of the host). The mutable closed-over variables of the source
(`timer`, `lastArgs`, `lastThis`, `lastCallTime`, `lastInvokeTime`,
`result`) become fields of an explicit state record. Two bookkeeping
fields are added that the host environment, not the controller, owns:
`active` models the set of outstanding deferred tasks of the host scheduler
(each `setTimeout` adds an entry, each `clearTimeout` and each firing
removes one), together with `nextId`, the counter the host keeps for timer
handles; and `log` records every actual execution of the wrapped action
(time, caller context, arguments), newest first, so that theorems can
speak about how often and with which data the action ran.

The wrapped action is a parameter `fn : γ → α → ρ` taking the caller
context (the dynamic this-binding of the source) and the argument list.
-/

namespace Debounce

/-- Configuration of a controller instance: the `wait` delay and the
destructured options `leading` (default false), `trailing` (default
true) and the optional `maxWait`, as read once at construction. -/
structure Config where
  wait : Nat
  leading : Bool
  trailing : Bool
  maxWait : Option Nat
  deriving DecidableEq, Repr

/-- The controller state: the closed-over variables of the source plus
host-environment bookkeeping (`nextId`, `active`) and the execution
`log` (newest execution first). -/
structure DState (α γ ρ : Type) where
  timer : Option Nat
  lastArgs : Option α
  lastThis : Option γ
  lastCallTime : Option Nat
  lastInvokeTime : Nat
  result : Option ρ
  nextId : Nat
  active : List (Nat × Nat)
  log : List (Nat × γ × α)
  deriving DecidableEq, Repr

variable {α γ ρ : Type}

/-- The state created by the `debounce` factory: no timer, no pending
data, `lastInvokeTime` at its sentinel 0, no stored result, and an idle
host scheduler. -/
def initState : DState α γ ρ :=
  { timer := none, lastArgs := none, lastThis := none, lastCallTime := none
  , lastInvokeTime := 0, result := none, nextId := 0, active := [], log := [] }

/-- Effect of `clearTimeout(timer)` followed by dropping the handle: the
outstanding task of the controller, if any, is removed from the host
scheduler and the handle is cleared. -/
def clearTimer (s : DState α γ ρ) : DState α γ ρ :=
  match s.timer with
  | some id => { s with timer := none, active := s.active.filter (fun p => p.1 != id) }
  | none => s

/-- Source `startTimer(pendingFunc, wait)`: clear any previous timer,
then schedule a fresh deferred task. The callback is always the trailing
edge at the firing instant, so the model records only the firing time
`fireTime = now + wait`. -/
def startTimer (fireTime : Nat) (s : DState α γ ρ) : DState α γ ρ :=
  let s := clearTimer s
  { s with timer := some s.nextId
         , active := (s.nextId, fireTime) :: s.active
         , nextId := s.nextId + 1 }

/-- Source `invokeFunc(time)`: record the execution time, call `fn` with
the stored context and arguments, store the result, clear the pending
references. The fallback branch mirrors the non-null assertion the source places
on `lastArgs`; it is unreachable from every call site, each of which
establishes the pending data first. -/
def invokeFunc (fn : γ → α → ρ) (time : Nat) (s : DState α γ ρ) : DState α γ ρ :=
  match s.lastArgs, s.lastThis with
  | some a, some c =>
      { s with lastInvokeTime := time
             , result := some (fn c a)
             , lastArgs := none, lastThis := none
             , log := (time, c, a) :: s.log }
  | _, _ => { s with lastInvokeTime := time }

/-- Source `shouldInvoke(time)`: true on the first-ever invocation
(sentinel), else true exactly when `maxWait` is set and
`time - lastInvokeTime >= maxWait` (computed over the integers, as the
source subtraction is not truncated). -/
def shouldInvoke (cfg : Config) (time : Nat) (s : DState α γ ρ) : Bool :=
  if s.lastInvokeTime = 0 then true
  else
    match cfg.maxWait with
    | some m => decide ((m : Int) ≤ (time : Int) - (s.lastInvokeTime : Int))
    | none => false

/-- Source `trailingEdge(time)`: drop the timer handle; if `trailing` is
enabled and a call is pending, execute it now, otherwise clear any stale
pending data and keep the stored result. -/
def trailingEdge (cfg : Config) (fn : γ → α → ρ) (time : Nat) (s : DState α γ ρ) :
    DState α γ ρ :=
  let s := { s with timer := none }
  if cfg.trailing && s.lastArgs.isSome then invokeFunc fn time s
  else { s with lastArgs := none, lastThis := none }

/-- Source `debounced(...args)`, the proxy call at clock time `now` with
caller context `ctx` and arguments `args`. Its return value is the
`result` field of the produced state. -/
def debounced (cfg : Config) (fn : γ → α → ρ) (now : Nat) (ctx : γ) (args : α)
    (s : DState α γ ρ) : DState α γ ρ :=
  let isInvoking := shouldInvoke cfg now s
  let s := { s with lastArgs := some args, lastThis := some ctx, lastCallTime := some now }
  if isInvoking then
    if s.timer = none then
      let s := if cfg.leading then invokeFunc fn now s else s
      startTimer (now + cfg.wait) s
    else if cfg.maxWait.isSome then startTimer (now + cfg.wait) s
    else s
  else if s.timer = none then startTimer (now + cfg.wait) s
  else s

/-- Source `debounced.cancel()`: clear the outstanding task if any, drop
the pending data, reset `lastInvokeTime` to the sentinel.
(`lastCallTime` is not touched by the source.) -/
def cancel (s : DState α γ ρ) : DState α γ ρ :=
  { clearTimer s with lastArgs := none, lastThis := none, lastInvokeTime := 0 }

/-- Source `debounced.flush()` at clock time `now`: if a task is
outstanding, cancel it and run the trailing edge synchronously;
otherwise return the stored result unchanged. Its return value is the
`result` field of the produced state. -/
def flush (cfg : Config) (fn : γ → α → ρ) (now : Nat) (s : DState α γ ρ) : DState α γ ρ :=
  match s.timer with
  | some _ => trailingEdge cfg fn now (clearTimer s)
  | none => s

/-- The host scheduler fires the outstanding task of the controller at its
scheduled time: the task is removed from the scheduler and its callback
runs `trailingEdge` at the firing instant. Identity when the controller
holds no live task. -/
def fireTimer (cfg : Config) (fn : γ → α → ρ) (s : DState α γ ρ) : DState α γ ρ :=
  match s.timer with
  | some id =>
      match s.active.find? (fun p => p.1 == id) with
      | some idft =>
          trailingEdge cfg fn idft.2 { s with active := s.active.filter (fun p => p.1 != id) }
      | none => s
  | none => s

/-- Fold a list of proxy calls (time, context, arguments) over a state,
in list order. -/
def runCalls (cfg : Config) (fn : γ → α → ρ) (calls : List (Nat × γ × α))
    (s : DState α γ ρ) : DState α γ ρ :=
  calls.foldl (fun s c => debounced cfg fn c.1 c.2.1 c.2.2 s) s

/-- One observable operation on a controller instance: a proxy call, the
host firing an outstanding deferred task, a cancel, or a flush. -/
inductive Step (cfg : Config) (fn : γ → α → ρ) : DState α γ ρ → DState α γ ρ → Prop
  | callStep (now : Nat) (ctx : γ) (args : α) (s : DState α γ ρ) :
      Step cfg fn s (debounced cfg fn now ctx args s)
  | fireStep (id ft : Nat) (s : DState α γ ρ) (hmem : (id, ft) ∈ s.active) :
      Step cfg fn s
        (trailingEdge cfg fn ft { s with active := s.active.filter (fun p => p.1 != id) })
  | cancelStep (s : DState α γ ρ) : Step cfg fn s (cancel s)
  | flushStep (now : Nat) (s : DState α γ ρ) : Step cfg fn s (flush cfg fn now s)

/-- States reachable from the freshly constructed controller by any
sequence of operations. -/
inductive Reachable (cfg : Config) (fn : γ → α → ρ) : DState α γ ρ → Prop
  | start : Reachable cfg fn initState
  | step {s s' : DState α γ ρ} :
      Reachable cfg fn s → Step cfg fn s s' → Reachable cfg fn s'

/-- Single-timer invariant: the outstanding tasks of the host scheduler are
exactly the one referenced by the handle of the controller (or none). -/
def Inv (s : DState α γ ρ) : Prop :=
  s.active.map Prod.fst = s.timer.toList

theorem clearTimer_timer (s : DState α γ ρ) : (clearTimer s).timer = none := by
  cases h : s.timer <;> simp [clearTimer, h]

theorem clearTimer_lastArgs (s : DState α γ ρ) : (clearTimer s).lastArgs = s.lastArgs := by
  cases h : s.timer <;> simp [clearTimer, h]

theorem clearTimer_lastThis (s : DState α γ ρ) : (clearTimer s).lastThis = s.lastThis := by
  cases h : s.timer <;> simp [clearTimer, h]

theorem clearTimer_lastCallTime (s : DState α γ ρ) :
    (clearTimer s).lastCallTime = s.lastCallTime := by
  cases h : s.timer <;> simp [clearTimer, h]

theorem clearTimer_lastInvokeTime (s : DState α γ ρ) :
    (clearTimer s).lastInvokeTime = s.lastInvokeTime := by
  cases h : s.timer <;> simp [clearTimer, h]

theorem clearTimer_result (s : DState α γ ρ) : (clearTimer s).result = s.result := by
  cases h : s.timer <;> simp [clearTimer, h]

theorem clearTimer_log (s : DState α γ ρ) : (clearTimer s).log = s.log := by
  cases h : s.timer <;> simp [clearTimer, h]

theorem startTimer_log (ft : Nat) (s : DState α γ ρ) : (startTimer ft s).log = s.log := by
  unfold startTimer; exact clearTimer_log s

theorem startTimer_lastArgs (ft : Nat) (s : DState α γ ρ) :
    (startTimer ft s).lastArgs = s.lastArgs := by
  unfold startTimer; exact clearTimer_lastArgs s

theorem startTimer_lastInvokeTime (ft : Nat) (s : DState α γ ρ) :
    (startTimer ft s).lastInvokeTime = s.lastInvokeTime := by
  unfold startTimer; exact clearTimer_lastInvokeTime s

theorem startTimer_result (ft : Nat) (s : DState α γ ρ) :
    (startTimer ft s).result = s.result := by
  unfold startTimer; exact clearTimer_result s

theorem invokeFunc_lastInvokeTime (fn : γ → α → ρ) (t : Nat) (s : DState α γ ρ) :
    (invokeFunc fn t s).lastInvokeTime = t := by
  cases h1 : s.lastArgs <;> cases h2 : s.lastThis <;> simp [invokeFunc, h1, h2]

theorem invokeFunc_timer (fn : γ → α → ρ) (t : Nat) (s : DState α γ ρ) :
    (invokeFunc fn t s).timer = s.timer := by
  cases h1 : s.lastArgs <;> cases h2 : s.lastThis <;> simp [invokeFunc, h1, h2]

theorem invokeFunc_active (fn : γ → α → ρ) (t : Nat) (s : DState α γ ρ) :
    (invokeFunc fn t s).active = s.active := by
  cases h1 : s.lastArgs <;> cases h2 : s.lastThis <;> simp [invokeFunc, h1, h2]

theorem invokeFunc_nextId (fn : γ → α → ρ) (t : Nat) (s : DState α γ ρ) :
    (invokeFunc fn t s).nextId = s.nextId := by
  cases h1 : s.lastArgs <;> cases h2 : s.lastThis <;> simp [invokeFunc, h1, h2]

theorem trailingEdge_timer (cfg : Config) (fn : γ → α → ρ) (t : Nat) (s : DState α γ ρ) :
    (trailingEdge cfg fn t s).timer = none := by
  unfold trailingEdge
  dsimp only
  split
  · rw [invokeFunc_timer]
  · rfl

theorem trailingEdge_active (cfg : Config) (fn : γ → α → ρ) (t : Nat) (s : DState α γ ρ) :
    (trailingEdge cfg fn t s).active = s.active := by
  unfold trailingEdge
  dsimp only
  split
  · rw [invokeFunc_active]
  · rfl

theorem map_fst_eq_single_filter {l : List (Nat × Nat)} {id : Nat}
    (h : l.map Prod.fst = [id]) : l.filter (fun p => p.1 != id) = [] := by
  cases l with
  | nil => simp at h
  | cons p t =>
      simp only [List.map_cons, List.cons.injEq] at h
      obtain ⟨h1, h2⟩ := h
      have ht : t = [] := by
        cases t with
        | nil => rfl
        | cons q u => simp at h2
      subst ht
      simp [List.filter, h1]

theorem inv_active_none {s : DState α γ ρ} (h : Inv s) (ht : s.timer = none) :
    s.active = [] := by
  unfold Inv at h
  rw [ht] at h
  cases hs : s.active with
  | nil => rfl
  | cons p t => rw [hs] at h; simp [Option.toList] at h

theorem inv_active_some {s : DState α γ ρ} (h : Inv s) {id : Nat} (ht : s.timer = some id) :
    ∃ ft, s.active = [(id, ft)] := by
  unfold Inv at h
  rw [ht] at h
  cases hs : s.active with
  | nil => rw [hs] at h; simp [Option.toList] at h
  | cons p t =>
      rw [hs] at h
      simp only [List.map_cons, Option.toList, List.cons.injEq] at h
      obtain ⟨h1, h2⟩ := h
      have ht2 : t = [] := by
        cases t with
        | nil => rfl
        | cons q u => simp at h2
      subst ht2
      exact ⟨p.2, by rw [← h1]⟩

theorem clearTimer_active_of_inv {s : DState α γ ρ} (h : Inv s) :
    (clearTimer s).active = [] := by
  unfold clearTimer
  cases ht : s.timer with
  | none => exact inv_active_none h ht
  | some id =>
      obtain ⟨ft, hact⟩ := inv_active_some h ht
      simp [hact]

theorem inv_clearTimer {s : DState α γ ρ} (h : Inv s) : Inv (clearTimer s) := by
  have h1 : (clearTimer s).active = [] := clearTimer_active_of_inv h
  have h2 : (clearTimer s).timer = none := clearTimer_timer s
  unfold Inv
  rw [h1, h2]
  rfl

theorem inv_startTimer {s : DState α γ ρ} (h : Inv s) (ft : Nat) : Inv (startTimer ft s) := by
  have h1 : (clearTimer s).active = [] := clearTimer_active_of_inv h
  unfold startTimer Inv
  simp [h1]

theorem inv_invokeFunc {s : DState α γ ρ} (h : Inv s) (fn : γ → α → ρ) (t : Nat) :
    Inv (invokeFunc fn t s) := by
  unfold Inv
  rw [invokeFunc_active, invokeFunc_timer]
  exact h

theorem debounced_cases (cfg : Config) (fn : γ → α → ρ) (now : Nat) (ctx : γ) (args : α)
    (s : DState α γ ρ) :
    debounced cfg fn now ctx args s
        = startTimer (now + cfg.wait)
            (invokeFunc fn now
              { s with lastArgs := some args, lastThis := some ctx, lastCallTime := some now })
  ∨ debounced cfg fn now ctx args s
        = startTimer (now + cfg.wait)
            { s with lastArgs := some args, lastThis := some ctx, lastCallTime := some now }
  ∨ debounced cfg fn now ctx args s
        = { s with lastArgs := some args, lastThis := some ctx, lastCallTime := some now } := by
  unfold debounced
  dsimp only
  by_cases h1 : shouldInvoke cfg now s = true
  · rw [if_pos h1]
    by_cases h2 : s.timer = none
    · rw [if_pos h2]
      by_cases h3 : cfg.leading = true
      · rw [if_pos h3]; left; rfl
      · rw [if_neg h3]; right; left; rfl
    · rw [if_neg h2]
      by_cases h4 : cfg.maxWait.isSome = true
      · rw [if_pos h4]; right; left; rfl
      · rw [if_neg h4]; right; right; rfl
  · rw [if_neg h1]
    by_cases h2 : s.timer = none
    · rw [if_pos h2]; right; left; rfl
    · rw [if_neg h2]; right; right; rfl

theorem inv_debounced {s : DState α γ ρ} (h : Inv s) (cfg : Config) (fn : γ → α → ρ)
    (now : Nat) (ctx : γ) (args : α) : Inv (debounced cfg fn now ctx args s) := by
  have hbase : Inv { s with lastArgs := some args, lastThis := some ctx, lastCallTime := some now } := h
  rcases debounced_cases cfg fn now ctx args s with hc | hc | hc <;> rw [hc]
  · exact inv_startTimer (inv_invokeFunc hbase fn now) _
  · exact inv_startTimer hbase _
  · exact hbase

theorem inv_trailingEdge {s : DState α γ ρ} (hact : s.active = []) (cfg : Config)
    (fn : γ → α → ρ) (t : Nat) : Inv (trailingEdge cfg fn t s) := by
  unfold Inv
  rw [trailingEdge_active, trailingEdge_timer, hact]
  rfl

theorem cancel_active (s : DState α γ ρ) : (cancel s).active = (clearTimer s).active := rfl

theorem cancel_timer (s : DState α γ ρ) : (cancel s).timer = none := by
  rw [show (cancel s).timer = (clearTimer s).timer from rfl, clearTimer_timer]

theorem inv_cancel {s : DState α γ ρ} (h : Inv s) : Inv (cancel s) := by
  unfold Inv
  rw [cancel_active, clearTimer_active_of_inv h, cancel_timer]
  rfl

theorem inv_flush {s : DState α γ ρ} (h : Inv s) (cfg : Config) (fn : γ → α → ρ)
    (now : Nat) : Inv (flush cfg fn now s) := by
  unfold flush
  cases ht : s.timer with
  | none => exact h
  | some id => exact inv_trailingEdge (clearTimer_active_of_inv h) cfg fn now

theorem inv_step {cfg : Config} {fn : γ → α → ρ} {s s' : DState α γ ρ}
    (h : Inv s) (hs : Step cfg fn s s') : Inv s' := by
  cases hs with
  | callStep now ctx args s => exact inv_debounced h cfg fn now ctx args
  | fireStep id ft s hmem =>
      cases ht : s.timer with
      | none =>
          have : s.active = [] := inv_active_none h ht
          rw [this] at hmem
          cases hmem
      | some tid =>
          have hmap : s.active.map Prod.fst = [tid] := by
            have := h
            unfold Inv at this
            rw [ht] at this
            exact this
          apply inv_trailingEdge
          show ({ s with active := s.active.filter (fun p => p.1 != id) } : DState α γ ρ).active = []
          show s.active.filter (fun p => p.1 != id) = []
          obtain ⟨ft2, hact⟩ := inv_active_some h ht
          rw [hact] at hmem
          have hid : id = tid := by
            cases hmem with
            | head => rfl
            | tail _ hmem2 => cases hmem2
          subst hid
          exact map_fst_eq_single_filter hmap
  | cancelStep s => exact inv_cancel h
  | flushStep now s => exact inv_flush h cfg fn now

theorem reachable_inv {cfg : Config} {fn : γ → α → ρ} {s : DState α γ ρ}
    (h : Reachable cfg fn s) : Inv s := by
  induction h with
  | start => rfl
  | step hr hs ih => exact inv_step ih hs

/-- Claim C6: at every reachable state of a controller instance, under any
sequence of proxy calls, timer firings, cancel and flush operations, at
most one deferred-execution task is outstanding in the host scheduler. -/
theorem c6_single_timer (cfg : Config) (fn : γ → α → ρ) (s : DState α γ ρ)
    (h : Reachable cfg fn s) : s.active.length ≤ 1 := by
  have hi := reachable_inv h
  unfold Inv at hi
  calc s.active.length = (s.active.map Prod.fst).length := by rw [List.length_map]
    _ = s.timer.toList.length := by rw [hi]
    _ ≤ 1 := by cases h2 : s.timer <;> simp [h2, Option.toList]

theorem c6_single_timer_witness :
    (debounced (⟨10, false, true, none⟩ : Config) (fun c a => c + a) 1 2 3
      (initState : DState Nat Nat Nat)).active.length ≤ 1 :=
  c6_single_timer _ _ _ (Reachable.step Reachable.start (Step.callStep 1 2 3 initState))

/-- Claim C10: an actual execution at clock time 0 writes 0, the sentinel,
into lastInvokeTime, so the state is indistinguishable from the
never-invoked state as far as forcing is concerned: every subsequent
proxy call computes isForced = true regardless of maxWait, even though
an execution has already occurred (it is on the log). -/
theorem c10_sentinel_execution (fn : γ → α → ρ) (s : DState α γ ρ)
    (c : γ) (a : α) (ha : s.lastArgs = some a) (hc : s.lastThis = some c) :
    (invokeFunc fn 0 s).log = (0, c, a) :: s.log
  ∧ (invokeFunc fn 0 s).lastInvokeTime = 0
  ∧ ∀ (cfg : Config) (t : Nat), shouldInvoke cfg t (invokeFunc fn 0 s) = true := by
  refine ⟨by simp [invokeFunc, ha, hc], invokeFunc_lastInvokeTime fn 0 s, ?_⟩
  intro cfg t
  unfold shouldInvoke
  rw [invokeFunc_lastInvokeTime]
  simp

theorem c10_sentinel_execution_witness :
    (invokeFunc (fun c a => c + a) 0
      ({ initState with lastArgs := some 5, lastThis := some 7 } : DState Nat Nat Nat)).log
        = [(0, 7, 5)]
  ∧ (invokeFunc (fun c a => c + a) 0
      ({ initState with lastArgs := some 5, lastThis := some 7 } : DState Nat Nat Nat)).lastInvokeTime
        = 0
  ∧ shouldInvoke (⟨3, true, true, some 5⟩ : Config) 9
      (invokeFunc (fun c a => c + a) 0
        ({ initState with lastArgs := some 5, lastThis := some 7 } : DState Nat Nat Nat)) = true :=
  ⟨(c10_sentinel_execution _ _ 7 5 rfl rfl).1,
   (c10_sentinel_execution _ _ 7 5 rfl rfl).2.1,
   (c10_sentinel_execution _ _ 7 5 rfl rfl).2.2 ⟨3, true, true, some 5⟩ 9⟩

/-- Claim C3 counterexample: with leading and trailing both true and a
single proxy call at time 1 on a fresh controller, the run consisting of
that call followed by the timer firing produces exactly ONE execution
(the leading one, at the call), not two: the leading execution consumed
the pending arguments, so the trailing edge finds none and does not
execute. -/
theorem c3_single_call_cex :
    (fireTimer (⟨10, true, true, none⟩ : Config) (fun c a => c + a)
        (debounced (⟨10, true, true, none⟩ : Config) (fun c a => c + a) 1 7 5
          (initState : DState Nat Nat Nat))).log = [(1, 7, 5)]
  ∧ ¬ (fireTimer (⟨10, true, true, none⟩ : Config) (fun c a => c + a)
        (debounced (⟨10, true, true, none⟩ : Config) (fun c a => c + a) 1 7 5
          (initState : DState Nat Nat Nat))).log.length = 2 :=
  ⟨by decide, by decide⟩

/-- Claim C3 amended: if the controller is constructed with leading=true
and trailing=true and exactly one proxy call ever occurs (and the window
is not canceled or flushed first), the wrapped action executes exactly
once, immediately at the call (leading edge); the trailing edge does not
execute again, because the leading execution already consumed the
pending arguments. -/
theorem c3_single_call_amended (w : Nat) (mw : Option Nat) (fn : γ → α → ρ)
    (t : Nat) (c : γ) (a : α) :
    (fireTimer (⟨w, true, true, mw⟩ : Config) fn
        (debounced (⟨w, true, true, mw⟩ : Config) fn t c a initState)).log = [(t, c, a)] := rfl

/-- The configuration of the maxWait starvation run: wait 3, leading,
trailing, maxWait 3. -/
def c2cfg : Config := ⟨3, true, true, some 3⟩

/-- The wrapped action of the maxWait starvation run. -/
def c2fn : Nat → Nat → Nat := fun c a => c + a

/-- Starvation run: proxy calls at times 1, 3, 5, 7, 9, 11, 13 (every
gap is 2, below wait = 3, i.e. the caller invokes more often than every
wait interval) with the single timer firing that ever becomes due, at
time 4. The timers started at the calls at 5, 7, 9, 11, 13 are scheduled
for 8, 10, 12, 14, 16 and each is cleared by the next call before its
scheduled time, so this event order is the real-time one. -/
def c2run : DState Nat Nat Nat :=
  debounced c2cfg c2fn 13 16 106 (debounced c2cfg c2fn 11 15 105 (debounced c2cfg c2fn 9 14 104
    (debounced c2cfg c2fn 7 13 103 (debounced c2cfg c2fn 5 12 102 (fireTimer c2cfg c2fn
      (debounced c2cfg c2fn 3 11 101 (debounced c2cfg c2fn 1 10 100 initState)))))))

/-- Claim C2, evaluated at the failing input: with maxWait = 3 and calls
continuing every 2 time units, the only executions ever performed are at
times 1 (leading) and 4 (the single firing); from the execution at time
4 through time 13 no further execution occurs although that span is
three times maxWait, because every call with now - lastInvokeTime at or
above maxWait finds a timer outstanding and merely reschedules it to
now + wait without invoking. The final state still only has the timer
scheduled for time 16, which the next call at 15 would again clear. -/
theorem c2_maxwait_starvation :
    c2run.log = [(4, 11, 101), (1, 10, 100)]
  ∧ c2run.active = [(5, 16)] ∧ c2run.timer = some 5 :=
  ⟨by decide, by decide, by decide⟩

/-- A reachable state with lastInvokeTime = 5: a single proxy call at
time 5 on a fresh leading controller, whose leading edge executed at
time 5. -/
def c7s : DState Nat Nat Nat :=
  debounced ⟨10, true, true, none⟩ (fun c a => c + a) 5 1 2 initState

/-- Claim C7 counterexample: cancel moves lastInvokeTime from 5 to the
sentinel 0, a strictly smaller value, so lastInvokeTime is not
monotonically non-decreasing across every operation. -/
theorem c7_monotone_cex :
    c7s.lastInvokeTime = 5
  ∧ (cancel c7s).lastInvokeTime = 0
  ∧ (cancel c7s).lastInvokeTime < c7s.lastInvokeTime :=
  ⟨by decide, by decide, by decide⟩

/-- Claim C7 amended: lastInvokeTime is non-decreasing across a proxy
call, a trailing-edge firing and a flush performed at any time now not
earlier than the current lastInvokeTime (the clock is monotone), but
cancel resets lastInvokeTime to the sentinel 0, which is a strict
decrease whenever an execution has occurred at a positive time. -/
theorem c7_monotone_amended (cfg : Config) (fn : γ → α → ρ) (now : Nat) (ctx : γ) (args : α)
    (s : DState α γ ρ) (h : s.lastInvokeTime ≤ now) :
    s.lastInvokeTime ≤ (debounced cfg fn now ctx args s).lastInvokeTime
  ∧ s.lastInvokeTime ≤ (trailingEdge cfg fn now s).lastInvokeTime
  ∧ s.lastInvokeTime ≤ (flush cfg fn now s).lastInvokeTime
  ∧ (cancel s).lastInvokeTime = 0 := by
  refine ⟨?_, ?_, ?_, rfl⟩
  · rcases debounced_cases cfg fn now ctx args s with hc | hc | hc <;> rw [hc]
    · rw [startTimer_lastInvokeTime, invokeFunc_lastInvokeTime]; exact h
    · rw [startTimer_lastInvokeTime]
  · unfold trailingEdge
    dsimp only
    split
    · rw [invokeFunc_lastInvokeTime]; exact h
    · exact le_refl _
  · unfold flush
    cases ht : s.timer with
    | none => exact le_refl _
    | some id =>
        show s.lastInvokeTime ≤ (trailingEdge cfg fn now (clearTimer s)).lastInvokeTime
        unfold trailingEdge
        dsimp only
        split
        · rw [invokeFunc_lastInvokeTime]; exact h
        · show s.lastInvokeTime ≤ (clearTimer s).lastInvokeTime
          rw [clearTimer_lastInvokeTime]

theorem c7_monotone_amended_witness :
    c7s.lastInvokeTime
      ≤ (debounced (⟨10, true, true, none⟩ : Config) (fun c a => c + a) 9 3 4 c7s).lastInvokeTime
  ∧ c7s.lastInvokeTime
      ≤ (trailingEdge (⟨10, true, true, none⟩ : Config) (fun c a => c + a) 9 c7s).lastInvokeTime
  ∧ c7s.lastInvokeTime
      ≤ (flush (⟨10, true, true, none⟩ : Config) (fun c a => c + a) 9 c7s).lastInvokeTime
  ∧ (cancel c7s).lastInvokeTime = 0 :=
  c7_monotone_amended _ _ 9 3 4 c7s (by decide)

/-- Claim C8: a proxy call that arrives while a timer is outstanding and
is not forced (lastInvokeTime is past the sentinel, and the maxWait
bound, if any, has not been reached) leaves the whole state unchanged
except for the pending arguments, the pending caller context and
lastCallTime: in particular the outstanding timer keeps running
unchanged and no execution occurs, so repeated calls within wait do not
reset the trailing delay. -/
theorem c8_frame (cfg : Config) (fn : γ → α → ρ) (now : Nat) (ctx : γ) (args : α)
    (s : DState α γ ρ) (tid : Nat) (ht : s.timer = some tid) (hli : s.lastInvokeTime ≠ 0)
    (hmw : ∀ m, cfg.maxWait = some m → (now : Int) - (s.lastInvokeTime : Int) < (m : Int)) :
    debounced cfg fn now ctx args s
      = { s with lastArgs := some args, lastThis := some ctx, lastCallTime := some now } := by
  have hsi : shouldInvoke cfg now s = false := by
    unfold shouldInvoke
    rw [if_neg hli]
    cases hm : cfg.maxWait with
    | none => rfl
    | some m => exact decide_eq_false (not_le.mpr (hmw m hm))
  have h2 : ¬ (s.timer = none) := by rw [ht]; exact fun hc => Option.noConfusion hc
  unfold debounced
  dsimp only
  rw [hsi]
  rw [if_neg (show ¬ (false = true) by decide)]
  rw [if_neg h2]

/-- A state with a pending timer and lastInvokeTime = 1 past the
sentinel: one leading call at time 1 on a fresh controller with no
maxWait. -/
def c8s : DState Nat Nat Nat :=
  debounced ⟨10, true, true, none⟩ (fun c a => c + a) 1 7 5 initState

theorem c8_frame_witness :
    debounced (⟨10, true, true, none⟩ : Config) (fun c a => c + a) 2 8 6 c8s
      = { c8s with lastArgs := some 6, lastThis := some 8, lastCallTime := some 2 } :=
  c8_frame _ _ 2 8 6 c8s 0 rfl (by decide) (fun m hm => Option.noConfusion hm)

theorem call_keeps (cfg : Config) (fn : γ → α → ρ) (now : Nat) (ctx : γ) (args : α)
    {s : DState α γ ρ} (hli : s.lastInvokeTime = 0) (ht : ¬ s.timer = none)
    (hmax : cfg.maxWait = none) :
    debounced cfg fn now ctx args s
      = { s with lastArgs := some args, lastThis := some ctx, lastCallTime := some now } := by
  have hsi : shouldInvoke cfg now s = true := by
    unfold shouldInvoke
    rw [if_pos hli]
  unfold debounced
  dsimp only
  rw [hsi, if_pos rfl, if_neg ht, hmax]
  rw [if_neg (show ¬ ((none : Option Nat).isSome = true) by decide)]

theorem runCalls_frozen (cfg : Config) (fn : γ → α → ρ) (hmax : cfg.maxWait = none)
    (l : List (Nat × γ × α)) :
    ∀ (s : DState α γ ρ), s.lastInvokeTime = 0 → ¬ s.timer = none →
      ∀ t c a, l.getLast? = some (t, c, a) →
      runCalls cfg fn l s
        = { s with lastArgs := some a, lastThis := some c, lastCallTime := some t } := by
  induction l with
  | nil =>
      intro s h1 h2 t c a hlast
      simp [List.getLast?] at hlast
  | cons x xs ih =>
      obtain ⟨xt, xc, xa⟩ := x
      intro s h1 h2 t c a hlast
      have hstep : runCalls cfg fn ((xt, xc, xa) :: xs) s
          = runCalls cfg fn xs (debounced cfg fn xt xc xa s) := rfl
      rw [hstep, call_keeps cfg fn xt xc xa h1 h2 hmax]
      cases xs with
      | nil =>
          have hx : xt = t ∧ xc = c ∧ xa = a := by
            simp [List.getLast?] at hlast
            exact hlast
          obtain ⟨e1, e2, e3⟩ := hx
          subst e1; subst e2; subst e3
          rfl
      | cons y ys =>
          have hlast2 : (y :: ys).getLast? = some (t, c, a) := by
            rw [← List.getLast?_cons_cons]
            exact hlast
          have hrec := ih { s with lastArgs := some xa, lastThis := some xc, lastCallTime := some xt } h1 h2 t c a hlast2
          rw [hrec]

/-- Claim C1: for every sequence of N at least 1 proxy calls made strictly
within one wait window (all call times lie in the half-open window of
length wait opened by the first call, in nondecreasing order, so the
timer started by the first call fires after the whole sequence), with
trailing=true, leading=false and no maxWait, exactly one execution of
the wrapped action occurs over the calls plus the firing, and it uses
the arguments and the caller context of the last call in the window. -/
theorem c1_coalescing (cfg : Config) (fn : γ → α → ρ)
    (t1 tN : Nat) (g1 gN : γ) (a1 aN : α) (rest : List (Nat × γ × α))
    (hlead : cfg.leading = false) (htrail : cfg.trailing = true) (hmax : cfg.maxWait = none)
    (hlast : ((t1, g1, a1) :: rest).getLast? = some (tN, gN, aN))
    (hsorted : ((t1, g1, a1) :: rest).Pairwise (fun x y => x.1 ≤ y.1))
    (hwin : ∀ e ∈ (t1, g1, a1) :: rest, t1 ≤ e.1 ∧ e.1 < t1 + cfg.wait) :
    (fireTimer cfg fn (runCalls cfg fn ((t1, g1, a1) :: rest) initState)).log
      = [(t1 + cfg.wait, gN, aN)] := by
  have h1 : debounced cfg fn t1 g1 a1 (initState : DState α γ ρ)
      = { timer := some 0, lastArgs := some a1, lastThis := some g1, lastCallTime := some t1,
          lastInvokeTime := 0, result := none, nextId := 1,
          active := [(0, t1 + cfg.wait)], log := [] } := by
    unfold debounced initState shouldInvoke startTimer clearTimer
    dsimp only
    rw [if_pos rfl, if_pos rfl, if_pos rfl, hlead]
    rw [if_neg (show ¬ (false = true) by decide)]
  have hstep : runCalls cfg fn ((t1, g1, a1) :: rest) initState
      = runCalls cfg fn rest (debounced cfg fn t1 g1 a1 initState) := rfl
  cases rest with
  | nil =>
      have hx : t1 = tN ∧ g1 = gN ∧ a1 = aN := by
        simp [List.getLast?] at hlast
        exact hlast
      obtain ⟨e1, e2, e3⟩ := hx
      subst e1; subst e2; subst e3
      rw [hstep, h1]
      show (fireTimer cfg fn _).log = _
      unfold fireTimer trailingEdge invokeFunc
      dsimp only
      rw [htrail]
      rfl
  | cons y ys =>
      have hlast2 : (y :: ys).getLast? = some (tN, gN, aN) := by
        rw [← List.getLast?_cons_cons]
        exact hlast
      rw [hstep, h1, runCalls_frozen cfg fn hmax (y :: ys) _ rfl
        (fun hc => Option.noConfusion hc) tN gN aN hlast2]
      unfold fireTimer trailingEdge invokeFunc
      dsimp only
      rw [htrail]
      rfl

theorem c1_coalescing_witness :
    (fireTimer (⟨10, false, true, none⟩ : Config) (fun c a => c + a)
        (runCalls (⟨10, false, true, none⟩ : Config) (fun c a => c + a)
          [(1, 5, 7), (3, 6, 8)] (initState : DState Nat Nat Nat))).log
      = [(11, 6, 8)] :=
  c1_coalescing _ _ 1 3 5 6 7 8 [(3, 6, 8)] rfl rfl rfl (by decide)
    (by decide) (by decide)

theorem invokeFunc_eq (fn : γ → α → ρ) (t : Nat) {s : DState α γ ρ} {a : α} {c : γ}
    (ha : s.lastArgs = some a) (hc : s.lastThis = some c) :
    invokeFunc fn t s
      = { s with lastInvokeTime := t
               , result := some (fn c a)
               , lastArgs := none, lastThis := none
               , log := (t, c, a) :: s.log } := by
  unfold invokeFunc
  rw [ha, hc]

theorem trailingEdge_invoke (cfg : Config) (fn : γ → α → ρ) (t : Nat) {s : DState α γ ρ}
    {a : α} {c : γ} (htrail : cfg.trailing = true) (ha : s.lastArgs = some a)
    (hc : s.lastThis = some c) :
    trailingEdge cfg fn t s
      = { s with timer := none, lastInvokeTime := t
               , result := some (fn c a)
               , lastArgs := none, lastThis := none
               , log := (t, c, a) :: s.log } := by
  have hcond : (cfg.trailing && s.lastArgs.isSome) = true := by rw [htrail, ha]; rfl
  unfold trailingEdge
  dsimp only
  rw [if_pos hcond]
  exact invokeFunc_eq fn t ha hc

theorem clearTimer_id {s : DState α γ ρ} (ht : s.timer = none) : clearTimer s = s := by
  unfold clearTimer
  rw [ht]

theorem flush_none (cfg : Config) (fn : γ → α → ρ) (now : Nat) {s : DState α γ ρ}
    (ht : s.timer = none) : flush cfg fn now s = s := by
  unfold flush
  rw [ht]

theorem flush_timer (cfg : Config) (fn : γ → α → ρ) (now : Nat) (s : DState α γ ρ) :
    (flush cfg fn now s).timer = none := by
  unfold flush
  cases ht : s.timer with
  | none => exact ht
  | some tid => exact trailingEdge_timer cfg fn now (clearTimer s)

/-- Claim C4: cancel clears the outstanding deferred task (and the host
scheduler holds none afterwards, so no execution can occur for the
pending window), clears the pending arguments and caller context,
resets lastInvokeTime to the sentinel, performs no execution itself
(the log is unchanged) and keeps the stored result; it is idempotent,
and on a fully quiescent state (no timer, no pending data,
lastInvokeTime at the sentinel) it changes nothing at all; afterwards
every call is treated as the start of a fresh window, and with
leading=true the next proxy call executes immediately with its own
arguments. -/
theorem c4_cancel_contract (cfg : Config) (fn : γ → α → ρ) (s : DState α γ ρ) (h : Inv s) :
    (cancel s).timer = none
  ∧ (cancel s).active = []
  ∧ (cancel s).lastArgs = none
  ∧ (cancel s).lastThis = none
  ∧ (cancel s).lastInvokeTime = 0
  ∧ (cancel s).log = s.log
  ∧ (cancel s).result = s.result
  ∧ cancel (cancel s) = cancel s
  ∧ (∀ t : Nat, shouldInvoke cfg t (cancel s) = true)
  ∧ (cfg.leading = true → ∀ (now : Nat) (ctx : γ) (args : α),
      (debounced cfg fn now ctx args (cancel s)).log = (now, ctx, args) :: s.log)
  ∧ (s.timer = none → s.lastArgs = none → s.lastThis = none → s.lastInvokeTime = 0 →
      cancel s = s) := by
  refine ⟨cancel_timer s, ?_, rfl, rfl, rfl, clearTimer_log s, clearTimer_result s, ?_, ?_, ?_, ?_⟩
  · rw [cancel_active, clearTimer_active_of_inv h]
  · have h2 : clearTimer (cancel s) = cancel s := by
      unfold clearTimer
      rw [cancel_timer]
    show { clearTimer (cancel s) with lastArgs := none, lastThis := none, lastInvokeTime := 0 } = cancel s
    rw [h2]
    rfl
  · intro t
    unfold shouldInvoke
    rw [if_pos (show (cancel s).lastInvokeTime = 0 from rfl)]
  · intro hlead now ctx args
    have hsi : shouldInvoke cfg now (cancel s) = true := by
      unfold shouldInvoke
      rw [if_pos (show (cancel s).lastInvokeTime = 0 from rfl)]
    unfold debounced
    dsimp only
    rw [hsi, if_pos rfl, if_pos (cancel_timer s), hlead, if_pos rfl, startTimer_log]
    rw [invokeFunc_eq fn now
      (show ({ cancel s with lastArgs := some args, lastThis := some ctx, lastCallTime := some now } : DState α γ ρ).lastArgs = some args from rfl)
      (show ({ cancel s with lastArgs := some args, lastThis := some ctx, lastCallTime := some now } : DState α γ ρ).lastThis = some ctx from rfl)]
    show (now, ctx, args) :: (cancel s).log = (now, ctx, args) :: s.log
    rw [show (cancel s).log = s.log from clearTimer_log s]
  · intro ht ha2 hl2 hli
    unfold cancel
    rw [clearTimer_id ht, ← ha2, ← hl2, ← hli]

/-- A state with one pending (not yet executed) call: a single proxy
call at time 1 on a fresh controller with leading=false. -/
def c4s : DState Nat Nat Nat :=
  debounced ⟨10, false, true, none⟩ (fun c a => c + a) 1 5 6 initState

theorem c4_cancel_contract_witness :
    (cancel c4s).timer = none
  ∧ (cancel c4s).active = []
  ∧ cancel (cancel c4s) = cancel c4s
  ∧ shouldInvoke (⟨10, true, true, none⟩ : Config) 20 (cancel c4s) = true
  ∧ (debounced (⟨10, true, true, none⟩ : Config) (fun c a => c + a) 20 8 9
      (cancel c4s)).log = [(20, 8, 9)] := by
  have H := c4_cancel_contract (⟨10, true, true, none⟩ : Config) (fun c a => c + a) c4s
    (by unfold Inv; decide)
  exact ⟨H.1, H.2.1, H.2.2.2.2.2.2.2.1, H.2.2.2.2.2.2.2.2.1 20,
    H.2.2.2.2.2.2.2.2.2.1 rfl 20 8 9⟩

/-- Claim C5: flush with a deferred task outstanding cancels that task
and synchronously runs the trailing edge at the current time, executing
the pending call and returning its result (beside the fresh log entry,
the stored result is the fresh value, the timer handle is cleared and
the host scheduler is empty); flush with nothing outstanding returns
the last stored result without executing anything (the state is
unchanged); and a second consecutive flush, with no calls in between,
changes nothing, whatever the two flush times are. -/
theorem c5_flush_contract (cfg : Config) (fn : γ → α → ρ) (now now2 : Nat)
    (s : DState α γ ρ) (h : Inv s) :
    (s.timer = none → flush cfg fn now s = s)
  ∧ (∀ (tid : Nat) (c : γ) (a : α), s.timer = some tid → cfg.trailing = true →
      s.lastArgs = some a → s.lastThis = some c →
        (flush cfg fn now s).log = (now, c, a) :: s.log
      ∧ (flush cfg fn now s).result = some (fn c a)
      ∧ (flush cfg fn now s).timer = none
      ∧ (flush cfg fn now s).active = [])
  ∧ flush cfg fn now2 (flush cfg fn now s) = flush cfg fn now s := by
  refine ⟨fun ht => flush_none cfg fn now ht, ?_,
    flush_none cfg fn now2 (flush_timer cfg fn now s)⟩
  intro tid c a ht htrail ha hc
  have ha2 : (clearTimer s).lastArgs = some a := by rw [clearTimer_lastArgs]; exact ha
  have hc2 : (clearTimer s).lastThis = some c := by rw [clearTimer_lastThis]; exact hc
  have h5 : flush cfg fn now s
      = { clearTimer s with timer := none, lastInvokeTime := now
                          , result := some (fn c a)
                          , lastArgs := none, lastThis := none
                          , log := (now, c, a) :: (clearTimer s).log } := by
    unfold flush
    rw [ht]
    exact trailingEdge_invoke cfg fn now htrail ha2 hc2
  refine ⟨?_, ?_, ?_, ?_⟩
  · rw [h5]
    show (now, c, a) :: (clearTimer s).log = (now, c, a) :: s.log
    rw [clearTimer_log]
  · rw [h5]
  · rw [h5]
  · rw [h5]
    show (clearTimer s).active = []
    exact clearTimer_active_of_inv h

/-- A state with one pending (not yet executed) call and a live timer:
a single proxy call at time 1 on a fresh controller with
leading=false. -/
def c5s : DState Nat Nat Nat :=
  debounced ⟨10, false, true, none⟩ (fun c a => c + a) 1 7 9 initState

theorem c5_flush_contract_witness :
    (flush (⟨10, false, true, none⟩ : Config) (fun c a => c + a) 4 c5s).log = [(4, 7, 9)]
  ∧ (flush (⟨10, false, true, none⟩ : Config) (fun c a => c + a) 4 c5s).result = some 16
  ∧ (flush (⟨10, false, true, none⟩ : Config) (fun c a => c + a) 4 c5s).timer = none
  ∧ (flush (⟨10, false, true, none⟩ : Config) (fun c a => c + a) 4 c5s).active = []
  ∧ flush (⟨10, false, true, none⟩ : Config) (fun c a => c + a) 5
      (flush (⟨10, false, true, none⟩ : Config) (fun c a => c + a) 4 c5s)
    = flush (⟨10, false, true, none⟩ : Config) (fun c a => c + a) 4 c5s := by
  have H := c5_flush_contract (⟨10, false, true, none⟩ : Config) (fun c a => c + a) 4 5 c5s
    (by unfold Inv; decide)
  exact ⟨(H.2.1 0 7 9 rfl rfl rfl rfl).1, (H.2.1 0 7 9 rfl rfl rfl rfl).2.1,
    (H.2.1 0 7 9 rfl rfl rfl rfl).2.2.1, (H.2.1 0 7 9 rfl rfl rfl rfl).2.2.2, H.2.2⟩

/-!
Fallible variant of the controller for the error-handling claim: the
wrapped action may throw, modeled as `Except ε ρ`. A throw aborts the
operation in progress at the exact program point of the source call
`result = fn.apply(lastThis, lastArgs)` inside `invokeFunc`: the
statements before it (recording `lastInvokeTime`) have happened, the
statements after it (storing the result, clearing the pending
references) have not, and in `debounced` the `startTimer` that follows
a throwing leading-edge execution is skipped. The error value carries
the state as it is at the moment the exception propagates.
-/

variable {ε : Type}

/-- Source `invokeFunc` with a throwing action: on a throw the state
carried out has lastInvokeTime already updated but the pending
references not yet cleared and the stored result unchanged. -/
def invokeFuncE (fn : γ → α → Except ε ρ) (time : Nat) (s : DState α γ ρ) :
    Except (ε × DState α γ ρ) (DState α γ ρ) :=
  let s1 := { s with lastInvokeTime := time }
  match s1.lastArgs, s1.lastThis with
  | some a, some c =>
      match fn c a with
      | .error e => .error (e, s1)
      | .ok r => .ok { s1 with result := some r, lastArgs := none, lastThis := none, log := (time, c, a) :: s1.log }
  | _, _ => .ok s1

/-- Source `trailingEdge` with a throwing action. -/
def trailingEdgeE (cfg : Config) (fn : γ → α → Except ε ρ) (time : Nat)
    (s : DState α γ ρ) : Except (ε × DState α γ ρ) (DState α γ ρ) :=
  let s := { s with timer := none }
  if cfg.trailing && s.lastArgs.isSome then invokeFuncE fn time s
  else .ok { s with lastArgs := none, lastThis := none }

/-- Source `debounced.flush` with a throwing action: a throw during the
synchronously run trailing edge propagates to the flush caller. -/
def flushE (cfg : Config) (fn : γ → α → Except ε ρ) (now : Nat) (s : DState α γ ρ) :
    Except (ε × DState α γ ρ) (DState α γ ρ) :=
  match s.timer with
  | some _ => trailingEdgeE cfg fn now (clearTimer s)
  | none => .ok s

/-- Source `debounced` with a throwing action: a throw during the
leading-edge execution propagates to the proxy caller, and the
`startTimer` that the source would perform after `invokeFunc` is
skipped. -/
def debouncedE (cfg : Config) (fn : γ → α → Except ε ρ) (now : Nat) (ctx : γ) (args : α)
    (s : DState α γ ρ) : Except (ε × DState α γ ρ) (DState α γ ρ) :=
  let isInvoking := shouldInvoke cfg now s
  let s := { s with lastArgs := some args, lastThis := some ctx, lastCallTime := some now }
  if isInvoking then
    if s.timer = none then
      if cfg.leading then
        match invokeFuncE fn now s with
        | .error es => .error es
        | .ok s2 => .ok (startTimer (now + cfg.wait) s2)
      else .ok (startTimer (now + cfg.wait) s)
    else if cfg.maxWait.isSome then .ok (startTimer (now + cfg.wait) s)
    else .ok s
  else if s.timer = none then .ok (startTimer (now + cfg.wait) s)
  else .ok s

/-- The state carried by a propagating exception, if any. -/
def errState : Except (ε × DState α γ ρ) (DState α γ ρ) → Option (DState α γ ρ)
  | .error es => some es.2
  | .ok _ => none

/-- Claim C9 counterexample: a fresh leading controller whose action
always throws; the single proxy call at time 1 propagates the
exception, but in the state at the throw the pending arguments are
still recorded (some 5), not cleared: the source clears them only
after the call to the action, a statement the throw skips. -/
theorem c9_throw_cex :
    (errState (debouncedE (⟨10, true, true, none⟩ : Config)
        (fun _ _ => (Except.error () : Except Unit Nat)) 1 7 5
        (initState : DState Nat Nat Nat))).map DState.lastArgs = some (some 5)
  ∧ (errState (debouncedE (⟨10, true, true, none⟩ : Config)
        (fun _ _ => (Except.error () : Except Unit Nat)) 1 7 5
        (initState : DState Nat Nat Nat))).map DState.lastThis = some (some 7) :=
  ⟨rfl, rfl⟩

/-- Claim C9 amended: if the wrapped action throws during an execution
triggered synchronously by the proxy call (leading edge) or by flush,
the exception propagates synchronously to that caller; in the state at
the throw, lastInvokeTime has already been updated to the execution
time, but the pending arguments and caller context are NOT cleared (the
clearing assignment follows the action call in invokeFunc and is
skipped by the throw) and the stored result is unchanged. -/
theorem c9_throw_amended (cfg : Config) (fn : γ → α → Except ε ρ) (now : Nat)
    (ctx : γ) (args : α) (e : ε) (s : DState α γ ρ) :
    (cfg.leading = true → s.timer = none → shouldInvoke cfg now s = true →
      fn ctx args = .error e →
      debouncedE cfg fn now ctx args s
        = .error (e, { s with lastArgs := some args, lastThis := some ctx
                            , lastCallTime := some now, lastInvokeTime := now }))
  ∧ (∀ (a : α) (c : γ) (tid : Nat), s.timer = some tid → cfg.trailing = true →
      s.lastArgs = some a → s.lastThis = some c → fn c a = .error e →
      flushE cfg fn now s
        = .error (e, { s with timer := none
                            , active := s.active.filter (fun p => p.1 != tid)
                            , lastInvokeTime := now })) := by
  constructor
  · intro hlead ht hsi hthrow
    have hiv : invokeFuncE fn now
        ({ s with lastArgs := some args, lastThis := some ctx, lastCallTime := some now } : DState α γ ρ)
        = .error (e, { s with lastArgs := some args, lastThis := some ctx
                            , lastCallTime := some now, lastInvokeTime := now }) := by
      unfold invokeFuncE
      dsimp only
      rw [hthrow]
    unfold debouncedE
    dsimp only
    rw [hsi, if_pos rfl, if_pos ht, hlead, if_pos rfl, hiv]
  · intro a c tid ht htrail ha hc hthrow
    have hct : clearTimer s
        = { s with timer := none, active := s.active.filter (fun p => p.1 != tid) } := by
      unfold clearTimer
      rw [ht]
    have hiv : invokeFuncE fn now
        ({ s with timer := none, lastArgs := some a, lastThis := some c, active := s.active.filter (fun p => p.1 != tid) } : DState α γ ρ)
        = .error (e, { s with timer := none, lastArgs := some a, lastThis := some c, active := s.active.filter (fun p => p.1 != tid), lastInvokeTime := now }) := by
      unfold invokeFuncE
      dsimp only
      rw [hthrow]
    unfold flushE
    rw [ht]
    show trailingEdgeE cfg fn now (clearTimer s) = _
    rw [hct]
    unfold trailingEdgeE
    dsimp only
    rw [ha, hc]
    rw [if_pos (show (cfg.trailing && (some a).isSome) = true by rw [htrail]; rfl)]
    exact hiv

theorem c9_throw_amended_witness :
    debouncedE (⟨10, true, true, none⟩ : Config)
        (fun _ _ => (Except.error () : Except Unit Nat)) 1 7 5
        (initState : DState Nat Nat Nat)
      = .error ((), { (initState : DState Nat Nat Nat) with
          lastArgs := some 5, lastThis := some 7, lastCallTime := some 1, lastInvokeTime := 1 }) :=
  (c9_throw_amended (⟨10, true, true, none⟩ : Config)
      (fun _ _ => (Except.error () : Except Unit Nat)) 1 7 5 () initState).1
    rfl rfl rfl rfl

end Debounce
